import Mathlib

/-!
Shallow embedding of the docktor repository (src/dock.rs and src/mac_app.rs).

The repository edits the macOS Dock configuration plist.  Its core is:
  * a serde data model `Dock` / `DockItem` / `TileMetadata` / `FileLocation` /
    `DockItemKind` over the plist document format (src/dock.rs), with a
    mutation `Dock::add_app` appending a `DockItem` built from a `MacApp`;
  * a bundle reader `MacApp::from_path` (src/mac_app.rs) that validates a
    bundle path, reads `Contents/Info.plist`, and resolves a display name and
    bundle identifier.

Plist documents are embedded at the value level as `PValue` (the subset of
plist value kinds the model touches: strings, integers, arrays,
dictionaries).  The serde derive machinery of the Rust source is embedded as
explicit decode functions (`decodeDock` etc., modelling `plist::from_reader`
into the derived `Deserialize` impls) and encode functions (`encodeDock`
etc., modelling the derived `Serialize` impls): struct fields are emitted in
declaration order under their `serde(rename)` keys, `Option::None` fields are
skipped, missing required keys are decode errors, unknown dictionary keys are
ignored on decode, and an `i32` field rejects integers outside the `i32`
range.  Filesystem access of `MacApp::from_path` is embedded as an explicit
`FileSystem` record passed to the function.
-/

/-- Plist value tree: the subset of plist value kinds exercised by the
repository's data model (string, integer, array, dictionary). -/
inductive PValue where
  | string (s : String)
  | integer (n : Int)
  | array (xs : List PValue)
  | dict (entries : List (String × PValue))

/-- The `tile-type` variant of a Dock item, from `enum DockItemKind` in
src/dock.rs.  `unknown` embeds the `#[serde(other)] Unknown` unit variant:
it carries no payload. -/
inductive DockItemKind where
  | fileTile
  | directoryTile
  | spacerTile
  | unknown
  deriving DecidableEq

/-- `struct FileLocation` from src/dock.rs (`_CFURLString`,
`_CFURLStringType`); the Rust `url_type` field is an `i32`, embedded as an
`Int` together with the range check performed on decode. -/
structure FileLocation where
  url : String
  url_type : Int
  deriving DecidableEq

/-- `struct TileMetadata` from src/dock.rs (`file-data`, `file-label`,
`bundle-identifier`). -/
structure TileMetadata where
  location : Option FileLocation
  display_name : Option String
  bundle_id : Option String
  deriving DecidableEq

/-- `struct DockItem` from src/dock.rs (`tile-data`, `tile-type`). -/
structure DockItem where
  metadata : TileMetadata
  kind : DockItemKind
  deriving DecidableEq

/-- `struct Dock` from src/dock.rs (`persistent-apps`, `persistent-others`);
an absent key decodes to `none`, distinguished from `some []`. -/
structure Dock where
  applications : Option (List DockItem)
  others : Option (List DockItem)
  deriving DecidableEq

/-- `struct MacApp` from src/mac_app.rs; the `PathBuf` is embedded as the
path string (`path.display()` in the source). -/
structure MacApp where
  path : String
  display_name : String
  bundle_id : String
  deriving DecidableEq

/-- `struct InfoPlist` from src/mac_app.rs: the three recognized
`Contents/Info.plist` keys, all optional. -/
structure InfoPlist where
  bundle_id : Option String
  display_name : Option String
  name : Option String
  deriving DecidableEq

/-- Errors of `MacApp::from_path` (src/mac_app.rs builds them as `anyhow`
messages; here each distinct failure site is a constructor, carrying the path
or message context the source formats into the error). -/
inductive AppError where
  | invalidBundle (path : String)
  | descriptorUnreadable (path : String)
  | descriptorMalformed (msg : String)
  | missingDisplayName (path : String)
  | missingBundleId (path : String)
  deriving DecidableEq

/-- First-match association lookup in a plist dictionary, modelling serde's
by-name field lookup. -/
def plistLookup (key : String) : List (String × PValue) → Option PValue
  | [] => none
  | (k, v) :: rest => if k = key then some v else plistLookup key rest

/-- Decoding a plist value into a Rust `String` field. -/
def decodeString : PValue → Except String String
  | .string s => .ok s
  | _ => .error "expected string"

/-- Decoding a plist value into a Rust `i32` field: integers outside the
`i32` range are a decode error. -/
def decodeI32 : PValue → Except String Int
  | .integer n =>
      if -2147483648 ≤ n ∧ n ≤ 2147483647 then .ok n
      else .error "integer out of range for i32"
  | _ => .error "expected integer"

/-- Decoding an `Option` field: a missing key is `none`, a present key must
decode with the field's decoder. -/
def optionalField {α : Type} (dec : PValue → Except String α) (key : String)
    (d : List (String × PValue)) : Except String (Option α) :=
  match plistLookup key d with
  | none => .ok none
  | some v =>
    match dec v with
    | .error e => .error e
    | .ok a => .ok (some a)

/-- A required field: a missing key is a decode error. -/
def requiredField (key : String) (d : List (String × PValue)) :
    Except String PValue :=
  match plistLookup key d with
  | none => .error ("missing field " ++ key)
  | some v => .ok v

/-- Derived `Deserialize` for `FileLocation` (src/dock.rs lines 116-125). -/
def decodeFileLocation : PValue → Except String FileLocation
  | .dict d =>
    match requiredField "_CFURLString" d with
    | .error e => .error e
    | .ok uv =>
      match decodeString uv with
      | .error e => .error e
      | .ok url =>
        match requiredField "_CFURLStringType" d with
        | .error e => .error e
        | .ok tv =>
          match decodeI32 tv with
          | .error e => .error e
          | .ok t => .ok { url := url, url_type := t }
  | _ => .error "FileLocation: expected dict"

/-- Derived `Serialize` for `FileLocation`. -/
def encodeFileLocation (l : FileLocation) : PValue :=
  .dict [("_CFURLString", .string l.url), ("_CFURLStringType", .integer l.url_type)]

/-- Derived `Deserialize` for `TileMetadata` (src/dock.rs lines 100-113):
all three fields are `Option`s. -/
def decodeTileMetadata : PValue → Except String TileMetadata
  | .dict d =>
    match optionalField decodeFileLocation "file-data" d with
    | .error e => .error e
    | .ok loc =>
      match optionalField decodeString "file-label" d with
      | .error e => .error e
      | .ok dn =>
        match optionalField decodeString "bundle-identifier" d with
        | .error e => .error e
        | .ok bid => .ok { location := loc, display_name := dn, bundle_id := bid }
  | _ => .error "TileMetadata: expected dict"

/-- Emission of an optional struct field: serde (with the plist serializer)
skips `None` fields. -/
def optField {α : Type} (key : String) (enc : α → PValue) : Option α → List (String × PValue)
  | none => []
  | some a => [(key, enc a)]

/-- Derived `Serialize` for `TileMetadata`: fields in declaration order,
`None`s skipped. -/
def encodeTileMetadata (m : TileMetadata) : PValue :=
  .dict (optField "file-data" encodeFileLocation m.location
    ++ optField "file-label" PValue.string m.display_name
    ++ optField "bundle-identifier" PValue.string m.bundle_id)

/-- Derived `Deserialize` for `DockItemKind` (src/dock.rs lines 82-97):
`rename_all = "kebab-case"` tags, with `#[serde(other)]` sending every
unrecognized tag to `unknown`. -/
def decodeDockItemKind : PValue → Except String DockItemKind
  | .string s =>
      .ok (if s = "file-tile" then .fileTile
        else if s = "directory-tile" then .directoryTile
        else if s = "spacer-tile" then .spacerTile
        else .unknown)
  | _ => .error "DockItemKind: expected string"

/-- Derived `Serialize` for `DockItemKind`: a unit variant serializes as its
kebab-cased name; in particular `unknown` serializes as the fixed tag
"unknown". -/
def encodeDockItemKind : DockItemKind → PValue
  | .fileTile => .string "file-tile"
  | .directoryTile => .string "directory-tile"
  | .spacerTile => .string "spacer-tile"
  | .unknown => .string "unknown"

/-- Derived `Deserialize` for `DockItem` (src/dock.rs lines 54-63): both
fields are required. -/
def decodeDockItem : PValue → Except String DockItem
  | .dict d =>
    match requiredField "tile-data" d with
    | .error e => .error e
    | .ok mv =>
      match decodeTileMetadata mv with
      | .error e => .error e
      | .ok m =>
        match requiredField "tile-type" d with
        | .error e => .error e
        | .ok kv =>
          match decodeDockItemKind kv with
          | .error e => .error e
          | .ok k => .ok { metadata := m, kind := k }
  | _ => .error "DockItem: expected dict"

/-- Derived `Serialize` for `DockItem`. -/
def encodeDockItem (i : DockItem) : PValue :=
  .dict [("tile-data", encodeTileMetadata i.metadata),
         ("tile-type", encodeDockItemKind i.kind)]

/-- Decoding a plist array element by element into `Vec<DockItem>`. -/
def decodeItemList : List PValue → Except String (List DockItem)
  | [] => .ok []
  | v :: vs =>
    match decodeDockItem v with
    | .error e => .error e
    | .ok i =>
      match decodeItemList vs with
      | .error e => .error e
      | .ok is => .ok (i :: is)

/-- Derived `Deserialize` for `Vec<DockItem>`. -/
def decodeDockItems : PValue → Except String (List DockItem)
  | .array xs => decodeItemList xs
  | _ => .error "expected array"

/-- Derived `Serialize` for `Vec<DockItem>`. -/
def encodeDockItems (is : List DockItem) : PValue :=
  .array (is.map encodeDockItem)

/-- Derived `Deserialize` for `Dock` (src/dock.rs lines 6-15): both
top-level keys are `Option<Vec<DockItem>>`, absent keys decode to `None`.
This embeds the decode half of `Dock::load` (src/dock.rs lines 19-31) at the
plist-value level; locating and opening the preference file is an external
collaborator concern. -/
def decodeDock : PValue → Except String Dock
  | .dict d =>
    match optionalField decodeDockItems "persistent-apps" d with
    | .error e => .error e
    | .ok apps =>
      match optionalField decodeDockItems "persistent-others" d with
      | .error e => .error e
      | .ok oth => .ok { applications := apps, others := oth }
  | _ => .error "Dock: expected dict"

/-- Derived `Serialize` for `Dock`: the serialization of the configuration
back to a plist document, at the value level. -/
def encodeDock (d : Dock) : PValue :=
  .dict (optField "persistent-apps" encodeDockItems d.applications
    ++ optField "persistent-others" encodeDockItems d.others)

/-- `DockItem::new` (src/dock.rs lines 66-78): the Dock entry built from a
`MacApp`; `format!("file://{}", app.path.display())` is the string append
below. -/
def DockItem.new (app : MacApp) : DockItem :=
  { kind := .fileTile,
    metadata :=
      { location := some { url := "file://" ++ app.path, url_type := 15 },
        display_name := some app.display_name,
        bundle_id := some app.bundle_id } }

/-- `Dock::add_app` (src/dock.rs lines 34-41): initialize `applications` to
an empty list when it is `None`, then push the new item. -/
def Dock.add_app (d : Dock) (app : MacApp) : Dock :=
  let d1 := if d.applications.isNone then { d with applications := some [] } else d
  match d1.applications with
  | some apps => { d1 with applications := some (apps ++ [DockItem.new app]) }
  | none => d1

/-- Characters of the last path segment, read from a reversed character
list: everything up to the first '/' of the reversed list. -/
def takeUntilSlashRev : List Char → List Char
  | [] => []
  | c :: cs => if c = '/' then [] else c :: takeUntilSlashRev cs

/-- Last path component, modelling `std::path::Path::file_name` for paths
written without trailing separators and without `.` / `..` components (the
only shapes the repository feeds it). -/
def pathFileName (p : String) : Option String :=
  let comp := String.mk ((takeUntilSlashRev p.toList.reverse).reverse)
  if comp = "" ∨ comp = "." ∨ comp = ".." then none else some comp

/-- Split a file name at its final dot: returns the parts before and after
the last '.' of the list, or `none` when the list has no dot. -/
def lastDotSplit : List Char → Option (List Char × List Char)
  | [] => none
  | c :: cs =>
    match lastDotSplit cs with
    | some (b, a) => some (c :: b, a)
    | none => if c = '.' then some ([], cs) else none

/-- `std::path::Path::extension`: the portion of the file name after its
final dot, unless there is no dot or the file name starts with its only
dot. -/
def pathExtension (p : String) : Option String :=
  match pathFileName p with
  | none => none
  | some f =>
    match lastDotSplit f.toList with
    | none => none
    | some (b, a) => if b = [] then none else some (String.mk a)

/-- `std::path::Path::file_stem`: the portion of the file name before its
final dot, or the whole file name when `pathExtension` is `none`. -/
def pathFileStem (p : String) : Option String :=
  match pathFileName p with
  | none => none
  | some f =>
    match lastDotSplit f.toList with
    | none => some f
    | some (b, _) => if b = [] then some f else some (String.mk b)

/-- Repeatedly strip a trailing ".app" from a reversed character list:
the recursion behind `str::trim_end_matches(".app")`. -/
def trimRevApp : List Char → List Char
  | 'p' :: 'p' :: 'a' :: '.' :: rest => trimRevApp rest
  | cs => cs

/-- `s.to_string_lossy().trim_end_matches(".app").to_string()` from
src/mac_app.rs line 38 (`to_string_lossy` is the identity on the embedded
strings). -/
def trimEndApp (s : String) : String :=
  String.mk ((trimRevApp s.toList.reverse).reverse)

/-- `Path::is_absolute` on Unix: the path has a root, i.e. starts with
'/'. -/
def isAbsolutePath (p : String) : Bool :=
  match p.toList with
  | '/' :: _ => true
  | _ => false

/-- The filesystem as seen by `MacApp::from_path`: `Path::exists` and
opening-plus-parsing a plist file into a value (`fs::File::open` followed by
`plist::from_reader`; `none` models an unreadable or unparsable file). -/
structure FileSystem where
  pathExists : String → Bool
  readPlist : String → Option PValue

/-- Derived `Deserialize` for `InfoPlist` (src/mac_app.rs lines 62-74). -/
def decodeInfoPlist : PValue → Except String InfoPlist
  | .dict d =>
    match optionalField decodeString "CFBundleIdentifier" d with
    | .error e => .error e
    | .ok bid =>
      match optionalField decodeString "CFBundleDisplayName" d with
      | .error e => .error e
      | .ok dn =>
        match optionalField decodeString "CFBundleName" d with
        | .error e => .error e
        | .ok nm => .ok { bundle_id := bid, display_name := dn, name := nm }
  | _ => .error "InfoPlist: expected dict"

/-- The display-name fallback chain of `MacApp::from_path` (src/mac_app.rs
lines 33-39): `info_plist.display_name.or(info_plist.name)` and then the
file stem with a trailing ".app" trimmed. -/
def MacApp.resolveDisplayName (info : InfoPlist) (path : String) : Option String :=
  (info.display_name.or info.name).or ((pathFileStem path).map trimEndApp)

/-- The field-resolution stage of `MacApp::from_path` (src/mac_app.rs lines
33-58): everything after the descriptor has been read and parsed.  The
display name is resolved first (its absence is the `MissingDisplayName`
failure, src/mac_app.rs lines 40-45), then the bundle identifier (absence is
the `MissingBundleId` failure, lines 47-52). -/
def MacApp.fromInfo (path : String) (info : InfoPlist) : Except AppError MacApp :=
  match MacApp.resolveDisplayName info path with
  | none => .error (.missingDisplayName path)
  | some dn =>
    match info.bundle_id with
    | none => .error (.missingBundleId path)
    | some bid => .ok { path := path, display_name := dn, bundle_id := bid }

/-- `MacApp::from_path` (src/mac_app.rs lines 21-59).  The guard embeds
`!path.exists() || path.extension().map_or(true, |ext| ext != "app")`; the
descriptor is then read from `<path>/Contents/Info.plist` and parsed, and
the fields are resolved by `MacApp.fromInfo`. -/
def MacApp.from_path (fs : FileSystem) (p : String) : Except AppError MacApp :=
  if !fs.pathExists p
      || (match pathExtension p with
          | none => true
          | some e => e != "app") then
    .error (.invalidBundle p)
  else
    match fs.readPlist (p ++ "/Contents/Info.plist") with
    | none => .error (.descriptorUnreadable p)
    | some v =>
      match decodeInfoPlist v with
      | .error e => .error (.descriptorMalformed e)
      | .ok info => MacApp.fromInfo p info

/-- Well-formedness of a decoded `FileLocation`: the `url_type` fits in an
`i32` (every decoded value satisfies this; it is what re-encoding needs to
decode again). -/
def FileLocationWF (l : FileLocation) : Prop :=
  -2147483648 ≤ l.url_type ∧ l.url_type ≤ 2147483647

/-- Well-formedness of a decoded `TileMetadata`. -/
def TileMetadataWF (m : TileMetadata) : Prop :=
  ∀ l ∈ m.location, FileLocationWF l

/-- Well-formedness of a decoded `DockItem`. -/
def DockItemWF (i : DockItem) : Prop :=
  TileMetadataWF i.metadata

/-- Well-formedness of a decoded item list. -/
def DockItemsWF (is : List DockItem) : Prop :=
  ∀ i ∈ is, DockItemWF i

/-- Well-formedness of a decoded `Dock`. -/
def DockWF (d : Dock) : Prop :=
  (∀ is ∈ d.applications, DockItemsWF is) ∧ (∀ is ∈ d.others, DockItemsWF is)

/-- A one-entry filesystem: `p` exists and its `Contents/Info.plist` parses
to the given plist value. -/
def constFS (info : PValue) (p : String) : FileSystem :=
  { pathExists := fun q => q == p,
    readPlist := fun q => if q == p ++ "/Contents/Info.plist" then some info else none }

/-- A configuration document with one pinned application entry and one
unrecognized entry, used to exercise the round-trip law on a concrete
document. -/
def exampleDoc : PValue :=
  .dict [("persistent-apps", .array [
      .dict [("tile-data", .dict [
          ("file-data", .dict [
              ("_CFURLString", .string "file:///Applications/Safari.app"),
              ("_CFURLStringType", .integer 15)]),
          ("file-label", .string "Safari"),
          ("bundle-identifier", .string "com.apple.Safari")]),
        ("tile-type", .string "file-tile")]]),
    ("persistent-others", .array [
      .dict [("tile-data", .dict []), ("tile-type", .string "url-tile")]])]

/-- The decoded form of `exampleDoc`. -/
def exampleDock : Dock :=
  { applications := some [
      { metadata :=
          { location := some { url := "file:///Applications/Safari.app", url_type := 15 },
            display_name := some "Safari",
            bundle_id := some "com.apple.Safari" },
        kind := .fileTile }],
    others := some [
      { metadata := { location := none, display_name := none, bundle_id := none },
        kind := .unknown }] }

/-- A one-entry configuration document whose single entry carries the given
`tile-type` tag and an empty `tile-data`. -/
def unknownTagDoc (tag : String) : PValue :=
  .dict [("persistent-apps", .array [
    .dict [("tile-data", .dict []), ("tile-type", .string tag)]])]

/-- The configuration that any `unknownTagDoc` with an unrecognized tag
decodes to. -/
def unknownTagDock : Dock :=
  { applications := some [
      { metadata := { location := none, display_name := none, bundle_id := none },
        kind := .unknown }],
    others := none }

/-- A filesystem in which the relative path "Foo.app" is an existing bundle
whose descriptor carries only a bundle identifier. -/
def relativeBundleFS : FileSystem :=
  constFS (.dict [("CFBundleIdentifier", .string "com.example.foo")]) "Foo.app"

/-- The `MacApp` that `from_path` produces for the relative path
"Foo.app". -/
def relativeFooApp : MacApp :=
  { path := "Foo.app", display_name := "Foo", bundle_id := "com.example.foo" }

/-- A successfully decoded `i32` lies in the `i32` range. -/
theorem decodeI32_ok_bounds (v : PValue) (n : Int) (h : decodeI32 v = .ok n) :
    -2147483648 ≤ n ∧ n ≤ 2147483647 := by
  cases v with
  | integer m =>
    simp only [decodeI32] at h
    split at h
    · rename_i hcond
      injection h with h
      subst h
      exact hcond
    · exact Except.noConfusion h
  | string s => exact Except.noConfusion h
  | array xs => exact Except.noConfusion h
  | dict d => exact Except.noConfusion h

/-- Re-decoding an in-range integer succeeds. -/
theorem decodeI32_roundtrip (n : Int) (h1 : -2147483648 ≤ n) (h2 : n ≤ 2147483647) :
    decodeI32 (.integer n) = .ok n := by
  simp [decodeI32, h1, h2]

/-- A successfully decoded string field came from a plist string. -/
theorem decodeString_ok (v : PValue) (s : String) (h : decodeString v = .ok s) :
    v = .string s := by
  cases v with
  | string t =>
    injection h with h
    subst h
    rfl
  | integer n => exact Except.noConfusion h
  | array xs => exact Except.noConfusion h
  | dict d => exact Except.noConfusion h

/-- Every successfully decoded `FileLocation` is well-formed. -/
theorem decodeFileLocation_wf (v : PValue) (l : FileLocation)
    (h : decodeFileLocation v = .ok l) : FileLocationWF l := by
  cases v with
  | dict d =>
    simp only [decodeFileLocation] at h
    repeat' split at h
    all_goals try exact Except.noConfusion h
    rename_i t ht
    injection h with h
    subst h
    exact decodeI32_ok_bounds _ _ ht
  | string s => exact Except.noConfusion h
  | integer n => exact Except.noConfusion h
  | array xs => exact Except.noConfusion h

/-- Re-decoding an encoded well-formed `FileLocation` recovers it. -/
theorem decodeFileLocation_roundtrip (l : FileLocation) (h : FileLocationWF l) :
    decodeFileLocation (encodeFileLocation l) = .ok l := by
  obtain ⟨h1, h2⟩ := h
  simp [encodeFileLocation, decodeFileLocation, requiredField, plistLookup,
    decodeString, decodeI32, h1, h2]

/-- Values reached through `optionalField` satisfy any property its decoder
guarantees. -/
theorem optionalField_wf {α : Type} (P : α → Prop) (dec : PValue → Except String α)
    (hdec : ∀ v a, dec v = .ok a → P a) (key : String) (d : List (String × PValue))
    (o : Option α) (h : optionalField dec key d = .ok o) : ∀ a ∈ o, P a := by
  simp only [optionalField] at h
  split at h
  · injection h with h
    subst h
    intro a ha
    exact absurd ha (by simp)
  · rename_i v hv
    split at h
    · exact Except.noConfusion h
    · rename_i a ha
      injection h with h
      subst h
      intro b hb
      obtain rfl : a = b := by simpa using hb
      exact hdec v a ha

/-- Every successfully decoded `TileMetadata` is well-formed. -/
theorem decodeTileMetadata_wf (v : PValue) (m : TileMetadata)
    (h : decodeTileMetadata v = .ok m) : TileMetadataWF m := by
  cases v with
  | dict d =>
    simp only [decodeTileMetadata] at h
    cases hloc : optionalField decodeFileLocation "file-data" d with
    | error e => simp [hloc] at h
    | ok loc =>
      simp only [hloc] at h
      cases hdn : optionalField decodeString "file-label" d with
      | error e => simp [hdn] at h
      | ok dn =>
        simp only [hdn] at h
        cases hbid : optionalField decodeString "bundle-identifier" d with
        | error e => simp [hbid] at h
        | ok bid =>
          simp only [hbid] at h
          injection h with h
          subst h
          exact optionalField_wf FileLocationWF decodeFileLocation
            decodeFileLocation_wf "file-data" d loc hloc
  | string s => exact Except.noConfusion h
  | integer n => exact Except.noConfusion h
  | array xs => exact Except.noConfusion h

/-- Re-decoding an encoded well-formed `TileMetadata` recovers it. -/
theorem decodeTileMetadata_roundtrip (m : TileMetadata) (h : TileMetadataWF m) :
    decodeTileMetadata (encodeTileMetadata m) = .ok m := by
  obtain ⟨loc, dn, bid⟩ := m
  cases loc with
  | none =>
    cases dn <;> cases bid <;>
      simp [encodeTileMetadata, decodeTileMetadata, optionalField, optField,
        plistLookup, decodeString]
  | some l =>
    have hl : FileLocationWF l := h l rfl
    have hr := decodeFileLocation_roundtrip l hl
    cases dn <;> cases bid <;>
      simp [encodeTileMetadata, decodeTileMetadata, optionalField, optField,
        plistLookup, decodeString, hr]

/-- Re-decoding an encoded `DockItemKind` recovers it; in particular the
`unknown` placeholder round-trips through the fixed tag "unknown". -/
theorem decodeDockItemKind_roundtrip (k : DockItemKind) :
    decodeDockItemKind (encodeDockItemKind k) = .ok k := by
  cases k <;> rfl

/-- Every successfully decoded `DockItem` is well-formed. -/
theorem decodeDockItem_wf (v : PValue) (i : DockItem)
    (h : decodeDockItem v = .ok i) : DockItemWF i := by
  cases v with
  | dict d =>
    simp only [decodeDockItem] at h
    cases hmv : requiredField "tile-data" d with
    | error e => simp [hmv] at h
    | ok mv =>
      simp only [hmv] at h
      cases hm : decodeTileMetadata mv with
      | error e => simp [hm] at h
      | ok m =>
        simp only [hm] at h
        cases hkv : requiredField "tile-type" d with
        | error e => simp [hkv] at h
        | ok kv =>
          simp only [hkv] at h
          cases hk : decodeDockItemKind kv with
          | error e => simp [hk] at h
          | ok k =>
            simp only [hk] at h
            injection h with h
            subst h
            exact decodeTileMetadata_wf _ _ hm
  | string s => exact Except.noConfusion h
  | integer n => exact Except.noConfusion h
  | array xs => exact Except.noConfusion h

/-- Re-decoding an encoded well-formed `DockItem` recovers it. -/
theorem decodeDockItem_roundtrip (i : DockItem) (h : DockItemWF i) :
    decodeDockItem (encodeDockItem i) = .ok i := by
  simp [encodeDockItem, decodeDockItem, requiredField, plistLookup,
    decodeTileMetadata_roundtrip i.metadata h, decodeDockItemKind_roundtrip i.kind]

/-- Every successfully decoded item list is well-formed. -/
theorem decodeItemList_wf (vs : List PValue) (is : List DockItem)
    (h : decodeItemList vs = .ok is) : DockItemsWF is := by
  induction vs generalizing is with
  | nil =>
    injection h with h
    subst h
    intro i hi
    exact absurd hi (by simp)
  | cons v vs ih =>
    simp only [decodeItemList] at h
    cases hi : decodeDockItem v with
    | error e => simp [hi] at h
    | ok i =>
      simp only [hi] at h
      cases hjs : decodeItemList vs with
      | error e => simp [hjs] at h
      | ok js =>
        simp only [hjs] at h
        injection h with h
        subst h
        intro j hj
        rcases List.mem_cons.mp hj with rfl | hj
        · exact decodeDockItem_wf _ _ hi
        · exact ih js hjs j hj

/-- Re-decoding an encoded well-formed item list recovers it. -/
theorem decodeItemList_roundtrip (is : List DockItem) (h : DockItemsWF is) :
    decodeItemList (is.map encodeDockItem) = .ok is := by
  induction is with
  | nil => rfl
  | cons i is ih =>
    have hi : DockItemWF i := h i (by simp)
    have hrest : DockItemsWF is := fun j hj => h j (by simp [hj])
    simp [decodeItemList, decodeDockItem_roundtrip i hi, ih hrest]

/-- Every successfully decoded `Vec<DockItem>` is well-formed. -/
theorem decodeDockItems_wf (v : PValue) (is : List DockItem)
    (h : decodeDockItems v = .ok is) : DockItemsWF is := by
  cases v with
  | array xs => exact decodeItemList_wf xs is h
  | string s => exact Except.noConfusion h
  | integer n => exact Except.noConfusion h
  | dict d => exact Except.noConfusion h

/-- Every successfully decoded `Dock` is well-formed. -/
theorem decodeDock_wf (v : PValue) (d : Dock) (h : decodeDock v = .ok d) :
    DockWF d := by
  cases v with
  | dict entries =>
    simp only [decodeDock] at h
    cases happs : optionalField decodeDockItems "persistent-apps" entries with
    | error e => simp [happs] at h
    | ok apps =>
      simp only [happs] at h
      cases hoth : optionalField decodeDockItems "persistent-others" entries with
      | error e => simp [hoth] at h
      | ok oth =>
        simp only [hoth] at h
        injection h with h
        subst h
        exact ⟨optionalField_wf DockItemsWF decodeDockItems decodeDockItems_wf
            "persistent-apps" entries apps happs,
          optionalField_wf DockItemsWF decodeDockItems decodeDockItems_wf
            "persistent-others" entries oth hoth⟩
  | string s => exact Except.noConfusion h
  | integer n => exact Except.noConfusion h
  | array xs => exact Except.noConfusion h

/-- Re-decoding an encoded well-formed `Dock` recovers it. -/
theorem decodeDock_roundtrip (d : Dock) (h : DockWF d) :
    decodeDock (encodeDock d) = .ok d := by
  obtain ⟨apps, oth⟩ := d
  obtain ⟨h1, h2⟩ := h
  cases apps with
  | none =>
    cases oth with
    | none =>
      simp [encodeDock, decodeDock, optionalField, optField, plistLookup]
    | some os =>
      have hr := decodeItemList_roundtrip os (h2 os rfl)
      simp [encodeDock, decodeDock, optionalField, optField, plistLookup,
        encodeDockItems, decodeDockItems, hr]
  | some as =>
    have ha := decodeItemList_roundtrip as (h1 as rfl)
    cases oth with
    | none =>
      simp [encodeDock, decodeDock, optionalField, optField, plistLookup,
        encodeDockItems, decodeDockItems, ha]
    | some os =>
      have hr := decodeItemList_roundtrip os (h2 os rfl)
      simp [encodeDock, decodeDock, optionalField, optField, plistLookup,
        encodeDockItems, decodeDockItems, ha, hr]

/-- A path with an extension has a file stem: both are carved out of the
same final-dot split of the same file name. -/
theorem pathFileStem_of_pathExtension (p : String) (e : String)
    (h : pathExtension p = some e) : ∃ s, pathFileStem p = some s := by
  simp only [pathExtension] at h
  simp only [pathFileStem]
  cases hf : pathFileName p with
  | none => simp [hf] at h
  | some f =>
    simp only [hf]
    cases hs : lastDotSplit f.toList with
    | none => exact ⟨f, by simp [hs]⟩
    | some ba =>
      obtain ⟨b, a⟩ := ba
      by_cases hb : b = []
      · exact ⟨f, by simp [hs, hb]⟩
      · exact ⟨String.mk b, by simp [hs, hb]⟩

/-- Once the bundle-shape guard passes and the descriptor is read and
parsed, `MacApp.from_path` is its field-resolution stage. -/
theorem from_path_after_validation (fs : FileSystem) (p : String) (v : PValue)
    (info : InfoPlist) (hex : fs.pathExists p = true)
    (hext : pathExtension p = some "app")
    (hread : fs.readPlist (p ++ "/Contents/Info.plist") = some v)
    (hparse : decodeInfoPlist v = .ok info) :
    MacApp.from_path fs p = MacApp.fromInfo p info := by
  simp [MacApp.from_path, hex, hext, hread, hparse]

/-- When the file stem exists, the fallback chain resolves to the first
present source: the explicit display name, else the generic name, else the
trimmed stem. -/
theorem resolveDisplayName_eq (info : InfoPlist) (p s : String)
    (hs : pathFileStem p = some s) :
    MacApp.resolveDisplayName info p =
      some ((info.display_name.or info.name).getD (trimEndApp s)) := by
  simp only [MacApp.resolveDisplayName, hs, Option.map_some']
  cases info.display_name.or info.name <;> simp [Option.or]

/-- C1: for every document that decodes into a `Dock`, re-encoding the
decoded configuration and decoding again recovers the same configuration on
every modelled field: decode (serialize (decode D)) = decode D. -/
theorem decode_serialize_decode (v : PValue) (d : Dock) (h : decodeDock v = .ok d) :
    decodeDock (encodeDock d) = .ok d :=
  decodeDock_roundtrip d (decodeDock_wf v d h)

/-- Witness for C1 on a concrete document with one pinned application and
one unrecognized entry. -/
theorem decode_serialize_decode_witness :
    decodeDock exampleDoc = .ok exampleDock ∧
    decodeDock (encodeDock exampleDock) = .ok exampleDock :=
  ⟨rfl, decode_serialize_decode exampleDoc exampleDock rfl⟩

/-- C2: `Dock.add_app` makes `applications` present with exactly the old
elements (empty when the key was absent) plus one appended entry, and the
new entry has kind `file-tile`, location "file://" ++ path with
`url_type = 15`, and the application's display name and bundle id. -/
theorem add_app_appends (d : Dock) (a : MacApp) :
    (d.add_app a).applications = some (d.applications.getD [] ++ [DockItem.new a]) ∧
    (DockItem.new a).kind = DockItemKind.fileTile ∧
    (DockItem.new a).metadata.location =
      some { url := "file://" ++ a.path, url_type := 15 } ∧
    (DockItem.new a).metadata.display_name = some a.display_name ∧
    (DockItem.new a).metadata.bundle_id = some a.bundle_id := by
  refine ⟨?_, rfl, rfl, rfl, rfl⟩
  cases h : d.applications with
  | none => simp [Dock.add_app, h]
  | some l => simp [Dock.add_app, h]

/-- C9: appending the same application twice yields a list ending in two
identical entries; no deduplication happens. -/
theorem add_app_twice (d : Dock) (a : MacApp) :
    ((d.add_app a).add_app a).applications =
      some (d.applications.getD [] ++ [DockItem.new a, DockItem.new a]) := by
  cases h : d.applications with
  | none => simp [Dock.add_app, h]
  | some l => simp [Dock.add_app, h]

/-- C10: `Dock.add_app` is total (the embedding returns a `Dock`, never an
error, as the Rust method returns `()`), leaves `others` exactly as it was,
and leaves every previously present element of `applications` unchanged in
its original position, the new entry coming after them. -/
theorem add_app_frame (d : Dock) (a : MacApp) :
    (d.add_app a).others = d.others ∧
    (d.add_app a).applications = some (d.applications.getD [] ++ [DockItem.new a]) := by
  constructor
  · cases h : d.applications <;> simp [Dock.add_app, h]
  · cases h : d.applications <;> simp [Dock.add_app, h]

/-- C5 counterexample: the entry with unrecognized tag "url-tile" decodes
successfully to the `unknown` placeholder, but serializing re-emits the
fixed tag "unknown", which differs from the original tag "url-tile": the
placeholder does not carry and does not re-emit the original tag. -/
theorem unknown_tag_not_reemitted :
    decodeDock (unknownTagDoc "url-tile") = .ok unknownTagDock ∧
    encodeDock unknownTagDock = unknownTagDoc "unknown" ∧
    ("unknown" : String) ≠ "url-tile" :=
  ⟨rfl, rfl, by decide⟩

/-- C5 (amended): every entry whose tile-type tag is not one of file-tile /
directory-tile / spacer-tile decodes without error to the payload-free
`unknown` placeholder, and serializing the configuration emits the fixed
tag "unknown" for it, not the original tag. -/
theorem unknown_tag_decodes_to_unknown (s : String)
    (h1 : s ≠ "file-tile") (h2 : s ≠ "directory-tile") (h3 : s ≠ "spacer-tile") :
    decodeDock (unknownTagDoc s) = .ok unknownTagDock ∧
    encodeDock unknownTagDock = unknownTagDoc "unknown" := by
  refine ⟨?_, rfl⟩
  simp [unknownTagDoc, unknownTagDock, decodeDock, optionalField, plistLookup,
    decodeDockItems, decodeItemList, decodeDockItem, requiredField,
    decodeTileMetadata, decodeDockItemKind, h1, h2, h3]

/-- Witness for the amended C5 at the concrete tag "url-tile". -/
theorem unknown_tag_decodes_to_unknown_witness :
    decodeDock (unknownTagDoc "url-tile") = .ok unknownTagDock ∧
    encodeDock unknownTagDock = unknownTagDoc "unknown" :=
  unknown_tag_decodes_to_unknown "url-tile" (by decide) (by decide) (by decide)

/-- C3: for every bundle whose shape check passes and whose descriptor
parses and carries a bundle identifier, `from_path` succeeds and resolves
the display name first-match-wins: the descriptor's explicit display name,
else its generic name, else the bundle filename's stem with a trailing
".app" stripped. -/
theorem from_path_display_name_fallback (fs : FileSystem) (p : String)
    (v : PValue) (info : InfoPlist) (bid s : String)
    (hex : fs.pathExists p = true)
    (hext : pathExtension p = some "app")
    (hread : fs.readPlist (p ++ "/Contents/Info.plist") = some v)
    (hparse : decodeInfoPlist v = .ok info)
    (hbid : info.bundle_id = some bid)
    (hs : pathFileStem p = some s) :
    MacApp.from_path fs p =
      .ok { path := p,
            display_name := (info.display_name.or info.name).getD (trimEndApp s),
            bundle_id := bid } := by
  rw [from_path_after_validation fs p v info hex hext hread hparse]
  simp only [MacApp.fromInfo, resolveDisplayName_eq info p s hs, hbid]

/-- Witness for C3: a descriptor with neither CFBundleDisplayName nor
CFBundleName at /Applications/Foo.app loads with display name "Foo". -/
theorem from_path_display_name_fallback_witness :
    MacApp.from_path
        (constFS (.dict [("CFBundleIdentifier", .string "com.example.foo")])
          "/Applications/Foo.app")
        "/Applications/Foo.app" =
      .ok { path := "/Applications/Foo.app", display_name := "Foo",
            bundle_id := "com.example.foo" } := by
  have h := from_path_display_name_fallback
    (constFS (.dict [("CFBundleIdentifier", .string "com.example.foo")])
      "/Applications/Foo.app")
    "/Applications/Foo.app"
    (.dict [("CFBundleIdentifier", .string "com.example.foo")])
    { bundle_id := some "com.example.foo", display_name := none, name := none }
    "com.example.foo" "Foo" rfl rfl rfl rfl rfl rfl
  exact h

/-- C4: for every bundle path passing the shape check whose descriptor
parses but lacks CFBundleIdentifier, `from_path` fails with the
missing-bundle-id error and returns no `MacApp`. -/
theorem from_path_missing_bundle_id (fs : FileSystem) (p : String)
    (v : PValue) (info : InfoPlist)
    (hex : fs.pathExists p = true)
    (hext : pathExtension p = some "app")
    (hread : fs.readPlist (p ++ "/Contents/Info.plist") = some v)
    (hparse : decodeInfoPlist v = .ok info)
    (hbid : info.bundle_id = none) :
    MacApp.from_path fs p = .error (.missingBundleId p) := by
  rw [from_path_after_validation fs p v info hex hext hread hparse]
  obtain ⟨s, hs⟩ := pathFileStem_of_pathExtension p "app" hext
  simp only [MacApp.fromInfo, resolveDisplayName_eq info p s hs, hbid]

/-- Witness for C4: an empty descriptor at /Applications/Foo.app. -/
theorem from_path_missing_bundle_id_witness :
    MacApp.from_path (constFS (.dict []) "/Applications/Foo.app")
        "/Applications/Foo.app" =
      .error (.missingBundleId "/Applications/Foo.app") :=
  from_path_missing_bundle_id (constFS (.dict []) "/Applications/Foo.app")
    "/Applications/Foo.app" (.dict [])
    { bundle_id := none, display_name := none, name := none }
    rfl rfl rfl rfl rfl

/-- C7: when all three display-name sources are absent (no explicit display
name, no generic name, no filename stem), the loader's field-resolution
stage fails with the missing-display-name error.  Within the full
`MacApp.from_path`, the shape guard `pathExtension p = some "app"` forces
the stem to be present (`pathFileStem_of_pathExtension`), so this failure
branch of the source is unreachable after validation; the theorem verifies
the resolution logic itself, which is what the source implements in
src/mac_app.rs lines 33-45. -/
theorem fromInfo_missing_display_name (p : String) (info : InfoPlist)
    (h1 : info.display_name = none) (h2 : info.name = none)
    (h3 : pathFileStem p = none) :
    MacApp.fromInfo p info = .error (.missingDisplayName p) := by
  simp [MacApp.fromInfo, MacApp.resolveDisplayName, h1, h2, h3, Option.or]

/-- Witness for C7: the empty path has no stem; a descriptor carrying only
a bundle identifier fails the display-name resolution. -/
theorem fromInfo_missing_display_name_witness :
    MacApp.fromInfo "" { bundle_id := some "x", display_name := none, name := none } =
      .error (.missingDisplayName "") :=
  fromInfo_missing_display_name ""
    { bundle_id := some "x", display_name := none, name := none } rfl rfl rfl

/-- C8: for every path that does not exist or whose last component lacks
the ".app" extension, `from_path` fails with the invalid-bundle error,
whatever the descriptor-reading part of the filesystem would return (the
result does not depend on `readPlist`), and no `MacApp` is produced. -/
theorem from_path_invalid_bundle (fs : FileSystem) (p : String)
    (h : fs.pathExists p = false ∨ pathExtension p ≠ some "app") :
    MacApp.from_path fs p = .error (.invalidBundle p) := by
  rcases h with h | h
  · simp [MacApp.from_path, h]
  · cases hext : pathExtension p with
    | none => simp [MacApp.from_path, hext]
    | some e =>
      have he : e ≠ "app" := by
        intro heq
        exact h (by rw [hext, heq])
      simp [MacApp.from_path, hext, he]

/-- Witness for C8: a nonexistent path. -/
theorem from_path_invalid_bundle_witness :
    MacApp.from_path (constFS (.dict []) "/Applications/Foo.app") "/tmp/nope" =
      .error (.invalidBundle "/tmp/nope") :=
  from_path_invalid_bundle (constFS (.dict []) "/Applications/Foo.app")
    "/tmp/nope" (Or.inl rfl)

/-- C6: the code contradicts the claimed invariant.  `from_path` accepts
the relative path "Foo.app" (it checks only existence and the ".app"
extension, never absoluteness, although the `MacApp.path` doc comment in
src/mac_app.rs says "Absolute path to the .app bundle"), and the entry
`Dock.add_app` would append carries url "file://Foo.app", which is not
"file://" followed by an absolute path. -/
theorem relative_path_not_absolute_url :
    MacApp.from_path relativeBundleFS "Foo.app" = .ok relativeFooApp ∧
    (DockItem.new relativeFooApp).metadata.location =
      some { url := "file://Foo.app", url_type := 15 } ∧
    isAbsolutePath "Foo.app" = false :=
  ⟨rfl, rfl, rfl⟩
